import Mathlib

/-!
Verification of the PyMesh coordination server and peer client
(`server.py`, `client.py`): a shallow embedding of the coordinator's
state machine and of the client's fetch receive loop, together with
proofs of the specified properties.

Modelling conventions:
* Python dicts (`credentials`, `activeUsers`, `filesUploaded`) are
  association lists with unique keys; `lookup`, `setKey`, `delKey`
  mirror `d[k]`, `d[k] = v` (update in place, else append, matching
  insertion-order semantics) and `del d[k]`.
* `time.time()` values are rationals; the caller of each step supplies
  the current time.
* Sending a datagram is modelled by returning the reply value.
* An uncaught Python exception in the main loop is modelled by the
  `Option.none` result of `loopIter`.
-/

set_option autoImplicit false

namespace PyMesh

/-- A network address `(host, port)` as produced by `recvfrom`. -/
abbrev Addr := String × Nat

/-- One entry of `activeUsers`: the tuple
`(clientAddress, last_status, tcpPort)` stored by `process_authentication`
(server.py line 117) and refreshed by the STATUS branch (line 248). -/
structure SessionData where
  addr : Addr
  lastStatus : ℚ
  tcpPort : Nat
deriving DecidableEq

/-- The coordinator's mutable state: the three dictionaries declared at
server.py lines 46-48 (`credentials` is loaded once and never mutated by
the loop). -/
structure ServerState where
  credentials : List (String × String)
  activeUsers : List (String × SessionData)
  filesUploaded : List (String × List String)
deriving DecidableEq

/-- Initial state of the server loop: credentials as loaded from file,
`activeUsers = {}`, `filesUploaded = {}` (server.py lines 46-48). -/
def initState (creds : List (String × String)) : ServerState :=
  { credentials := creds, activeUsers := [], filesUploaded := [] }

/-- Python `d[k]` / `d.get(k)`: first binding of the key, if any. -/
def lookup {α : Type} : List (String × α) → String → Option α
  | [], _ => none
  | (k, v) :: rest, key => if k = key then some v else lookup rest key

/-- Python `k in d`. -/
def hasKey {α : Type} (m : List (String × α)) (k : String) : Bool :=
  (lookup m k).isSome

/-- Python `d[k] = v`: replace the value in place if the key is bound,
else append the new binding (dicts keep insertion order). -/
def setKey {α : Type} : List (String × α) → String → α → List (String × α)
  | [], key, v => [(key, v)]
  | (k, v') :: rest, key, v =>
      if k = key then (key, v) :: rest else (k, v') :: setKey rest key v

/-- Python `del d[k]`. -/
def delKey {α : Type} (m : List (String × α)) (k : String) : List (String × α) :=
  m.filter (fun p => p.1 != k)

/-- Boolean test that `p` is a prefix of `s` (character lists). -/
def isPrefixCh : List Char → List Char → Bool
  | [], _ => true
  | _ :: _, [] => false
  | a :: as, b :: bs => a == b && isPrefixCh as bs

/-- Boolean test that `p` occurs contiguously inside `s`: the semantics
of Python's `p in s` on strings (server.py line 184). -/
def isSubstrCh (p : List Char) : List Char → Bool
  | [] => isPrefixCh p []
  | c :: t => isPrefixCh p (c :: t) || isSubstrCh p t

/-- Python `pattern in filename` for strings. -/
def substrOf (p s : String) : Bool :=
  isSubstrCh p.data s.data

/-- A reply datagram sent by the coordinator: every handler sends a
plain string except `process_fetch_request`, which sends the JSON
object `{'username': ..., 'address': ..., 'port': ...}`
(server.py lines 225-230). -/
inductive Reply where
  | text (s : String)
  | fetchInfo (username : String) (address : String) (port : Nat)
deriving DecidableEq

/-- Embeds `process_authentication` (server.py lines 86-131), restricted to its
state effect and reply; the surrounding `try` never fires for a
well-formed message, since every operation in the body is total. -/
def process_authentication (st : ServerState) (username password : String)
    (tcpPort : Nat) (clientAddress : Addr) (now : ℚ) : ServerState × String :=
  if hasKey st.activeUsers username then
    (st, "ERROR: User already logged in")
  else if ¬ hasKey st.credentials username then
    (st, "ERROR: Username not found")
  else if lookup st.credentials username ≠ some password then
    (st, "ERROR: Incorrect password")
  else
    let active := setKey st.activeUsers username ⟨clientAddress, now, tcpPort⟩
    ({ st with activeUsers := active }, "OK")

/-- The STATUS branch of the main loop (server.py lines 245-249):
refresh the session's address and timestamp, keeping the stored
`tcpPort`; silently ignore unknown usernames. -/
def process_status (st : ServerState) (username : String) (clientAddress : Addr)
    (now : ℚ) : ServerState :=
  match lookup st.activeUsers username with
  | some sd =>
      let active := setKey st.activeUsers username ⟨clientAddress, now, sd.tcpPort⟩
      { st with activeUsers := active }
  | none => st

/-- The peer list computed by `list_active_peers` (server.py line 136). -/
def list_active_peers (st : ServerState) (username : String) : List String :=
  (st.activeUsers.map Prod.fst).filter (fun peer => peer != username)

/-- Reply string of `list_active_peers` (server.py lines 138-141). -/
def peers_reply (peers : List String) : String :=
  if peers.isEmpty then "No active peers"
  else toString peers.length ++ " active peers:\n" ++ String.intercalate "\n" peers

/-- The file list computed by `list_shared_files` (server.py lines 149-152). -/
def list_shared_files (st : ServerState) (username : String) : List String :=
  (st.filesUploaded.filter (fun fr => fr.2.contains username)).map Prod.fst

/-- Reply string of `list_shared_files` (server.py lines 154-157). -/
def files_reply (files : List String) : String :=
  if files.isEmpty then "No files shared"
  else toString files.length ++ " file shared:\n" ++ String.intercalate "\n" files

/-- Embeds `share_file` (server.py lines 162-175): create an empty record for
the filename if absent, append the username if not already a sharer,
always report success. -/
def share_file (st : ServerState) (username filename : String) :
    ServerState × String :=
  let fu0 := if hasKey st.filesUploaded filename then st.filesUploaded
             else setKey st.filesUploaded filename []
  let record := (lookup fu0 filename).getD []
  let fu1 := if record.contains username then fu0
             else setKey fu0 filename (record ++ [username])
  ({ st with filesUploaded := fu1 }, "File shared successfully")

/-- The matches list built by `search_files` (server.py lines 182-188):
one pass over the registry in order; a filename is kept when the pattern
occurs in it and some sharer other than the caller is active (the inner
loop with `break` appends each filename at most once). -/
def search_files (st : ServerState) (username pat : String) : List String :=
  (st.filesUploaded.filter (fun fr =>
      substrOf pat fr.1 &&
      fr.2.any (fun sharer => hasKey st.activeUsers sharer && sharer != username))).map
    Prod.fst

/-- Reply string of `search_files` (server.py lines 190-193). -/
def search_reply (found : List String) : String :=
  if found.isEmpty then "No files found"
  else toString found.length ++ " files found:\n" ++ String.intercalate "\n" found

/-- Embeds `remove_shared_file` (server.py lines 198-214): `list.remove` drops
the first occurrence; the record is deleted when it becomes empty;
failure when the file is unknown or the caller is not a sharer. -/
def remove_shared_file (st : ServerState) (username filename : String) :
    ServerState × String :=
  match lookup st.filesUploaded filename with
  | some record =>
      if record.contains username then
        let newRecord := record.erase username
        let fu := if newRecord.isEmpty then delKey st.filesUploaded filename
                  else setKey st.filesUploaded filename newRecord
        ({ st with filesUploaded := fu }, "File successfully removed from sharing")
      else (st, "File removal failed")
  | none => (st, "File removal failed")

/-- The scan of `process_fetch_request` over a sharer list
(server.py lines 222-232): first sharer that is active and differs from
the caller wins; the reply carries its username, host and tcpPort. -/
def fetch_scan (st : ServerState) (username : String) : List String → Reply
  | [] => Reply.text "File not found"
  | sharer :: rest =>
      match lookup st.activeUsers sharer with
      | some sd =>
          if sharer ≠ username then Reply.fetchInfo sharer sd.addr.1 sd.tcpPort
          else fetch_scan st username rest
      | none => fetch_scan st username rest

/-- Embeds `process_fetch_request` (server.py lines 216-236). -/
def process_fetch_request (st : ServerState) (username filename : String) :
    Reply :=
  match lookup st.filesUploaded filename with
  | some record => fetch_scan st username record
  | none => Reply.text "File not found"

/-- The expiry sweep at the end of the main loop (server.py lines
263-270): every session whose last heartbeat is more than 3 seconds old
is deleted; nothing else changes. -/
def expiry_sweep (st : ServerState) (now : ℚ) : ServerState :=
  let active := st.activeUsers.filter (fun p => decide (¬ now - p.2.lastStatus > 3))
  { st with activeUsers := active }

/-- A well-formed control request: one message of the protocol table,
with its `type` discriminator and the fields that type requires. -/
inductive Request where
  | auth (username password : String) (tcpPort : Nat)
  | status (username : String)
  | listPeers (username : String)
  | listFiles (username : String)
  | share (username filename : String)
  | search (username pat : String)
  | remove (username filename : String)
  | fetch (username filename : String)
deriving DecidableEq

/-- The dispatch chain of the main loop (server.py lines 243-261): the
handler selected by `message['type']`, before the expiry sweep.
STATUS sends no reply. -/
def handleRequest (st : ServerState) (req : Request) (clientAddress : Addr)
    (now : ℚ) : ServerState × Option Reply :=
  match req with
  | .auth u p tp =>
      let out := process_authentication st u p tp clientAddress now
      (out.1, some (Reply.text out.2))
  | .status u => (process_status st u clientAddress now, none)
  | .listPeers u => (st, some (Reply.text (peers_reply (list_active_peers st u))))
  | .listFiles u => (st, some (Reply.text (files_reply (list_shared_files st u))))
  | .share u f =>
      let out := share_file st u f
      (out.1, some (Reply.text out.2))
  | .search u p => (st, some (Reply.text (search_reply (search_files st u p))))
  | .remove u f =>
      let out := remove_shared_file st u f
      (out.1, some (Reply.text out.2))
  | .fetch u f => (st, some (process_fetch_request st u f))

/-- One full iteration of the main loop on a well-formed message:
dispatch, then the expiry sweep (server.py lines 239-270). -/
def serverStep (st : ServerState) (req : Request) (clientAddress : Addr)
    (now : ℚ) : ServerState × Option Reply :=
  let out := handleRequest st req clientAddress now
  (expiry_sweep out.1 now, out.2)

/-- An inbound datagram as the main loop sees it: its payload is either
not JSON at all, a JSON object with no `type` key, or a well-formed
message of one of the eight recognized types. -/
inductive Datagram where
  | invalidJson
  | noType
  | valid (req : Request)
deriving DecidableEq

/-- One iteration of `while True` (server.py lines 239-270) on an
arbitrary datagram. `none` models an uncaught exception that terminates
the loop: `json.loads(data.decode())` (line 241) raises on a payload
that is not JSON, and `message['type']` (line 243) raises `KeyError`
when the key is missing; neither line is inside a `try`. -/
def loopIter (st : ServerState) (dg : Datagram) (clientAddress : Addr)
    (now : ℚ) : Option (ServerState × Option Reply) :=
  match dg with
  | .invalidJson => none
  | .noType => none
  | .valid req => some (serverStep st req clientAddress now)

/-- States of the coordinator reachable from a start state by any
sequence of well-formed messages. -/
inductive Reachable : ServerState → ServerState → Prop where
  | refl (st : ServerState) : Reachable st st
  | step {st0 st : ServerState} (req : Request) (clientAddress : Addr) (now : ℚ) :
      Reachable st0 st → Reachable st0 (serverStep st req clientAddress now).1

/-! ## Client fetch receive loop (client.py lines 330-342) -/

/-- The byte stream the requester's transfer socket yields: successive
`recv(1024)` results, each a nonfull-or-full chunk; once the list is
exhausted every further `recv` returns the empty bytes object (the
sender closed the connection). -/
abbrev ChunkStream := List (List Nat)

/-- The receive loop of the fetch path (client.py lines 331-337):
while fewer bytes than the declared size were received, read a chunk;
an empty chunk (closed connection) breaks the loop; otherwise the chunk
is written to the file and counted. Returns the final byte count and
the bytes written. -/
def fetch_recv_loop (fileSize : Nat) (received : Nat) (chunks : ChunkStream) :
    Nat × List Nat :=
  match chunks with
  | [] => (received, [])
  | c :: rest =>
      if received < fileSize then
        if c.isEmpty then (received, [])
        else
          let out := fetch_recv_loop fileSize (received + c.length) rest
          (out.1, c ++ out.2)
      else (received, [])

/-- Outcome of the requester's receive phase: bytes counted, bytes
written, and the line printed when the loop ends. -/
structure FetchOutcome where
  received : Nat
  written : List Nat
  report : String
deriving DecidableEq

/-- The fetch receive phase (client.py lines 330-342): run the loop from
a zero count, then print `f"\n{filename} downloaded successfully"` —
the success line is printed unconditionally after the loop, whatever
ended it. -/
def fetch_receive (filename : String) (fileSize : Nat) (chunks : ChunkStream) :
    FetchOutcome :=
  let out := fetch_recv_loop fileSize 0 chunks
  { received := out.1, written := out.2,
    report := filename ++ " downloaded successfully" }

/-! ## Specified properties, stated over the embedding -/

/-- Claimed behaviour of Authenticate: one outcome per call with the
precedence AlreadyActive, UnknownUser, BadPassword, success; failures
leave all state unchanged; success records a session carrying the
request's source address, the current time and the transfer port; and
afterwards a username still keys at most one session. -/
def AuthSpec (st : ServerState) (u p : String) (tp : Nat) (addr : Addr)
    (now : ℚ) : Prop :=
  ((∃ sd, (u, sd) ∈ st.activeUsers) →
     process_authentication st u p tp addr now =
       (st, "ERROR: User already logged in")) ∧
  ((∀ sd, (u, sd) ∉ st.activeUsers) → lookup st.credentials u = none →
     process_authentication st u p tp addr now =
       (st, "ERROR: Username not found")) ∧
  (∀ pw, (∀ sd, (u, sd) ∉ st.activeUsers) → lookup st.credentials u = some pw →
     pw ≠ p →
     process_authentication st u p tp addr now =
       (st, "ERROR: Incorrect password")) ∧
  ((∀ sd, (u, sd) ∉ st.activeUsers) → lookup st.credentials u = some p →
     (process_authentication st u p tp addr now).2 = "OK" ∧
     (u, ⟨addr, now, tp⟩) ∈
       (process_authentication st u p tp addr now).1.activeUsers ∧
     (process_authentication st u p tp addr now).1.filesUploaded =
       st.filesUploaded ∧
     (process_authentication st u p tp addr now).1.credentials =
       st.credentials) ∧
  (∀ u' sd sd',
     (u', sd) ∈ (process_authentication st u p tp addr now).1.activeUsers →
     (u', sd') ∈ (process_authentication st u p tp addr now).1.activeUsers →
     sd = sd')

/-- Claimed behaviour of the expiry sweep run by `serverStep` after the
handler: it keeps exactly the sessions at most 3 time units old, leaves
the file registry untouched, and an evicted user no longer appears in
any subsequent peer listing. -/
def SweepSpec (st : ServerState) (req : Request) (addr : Addr) (now : ℚ) : Prop :=
  (∀ u sd, (u, sd) ∈ (serverStep st req addr now).1.activeUsers ↔
     ((u, sd) ∈ (handleRequest st req addr now).1.activeUsers ∧
      ¬ now - sd.lastStatus > 3)) ∧
  (serverStep st req addr now).1.filesUploaded =
    (handleRequest st req addr now).1.filesUploaded ∧
  (∀ u sd, (u, sd) ∈ (serverStep st req addr now).1.activeUsers →
     now - sd.lastStatus ≤ 3) ∧
  (∀ u sd, (u, sd) ∈ (handleRequest st req addr now).1.activeUsers →
     now - sd.lastStatus > 3 →
     ∀ u', u ∉ list_active_peers (serverStep st req addr now).1 u')

/-- Claimed behaviour of Search: a filename is reported iff it contains
the pattern as a substring and some sharer other than the caller has a
live session; no filename is reported twice; and the reply prints the
length of the reported list (or the distinguished empty-result text). -/
def SearchSpec (st : ServerState) (u pat : String) : Prop :=
  (∀ f, f ∈ search_files st u pat ↔
     (pat.data <:+: f.data ∧
      ∃ rec, (f, rec) ∈ st.filesUploaded ∧
        ∃ s ∈ rec, s ≠ u ∧ ∃ sd, (s, sd) ∈ st.activeUsers)) ∧
  (search_files st u pat).Nodup ∧
  (search_files st u pat ≠ [] →
     search_reply (search_files st u pat) =
       toString (search_files st u pat).length ++ " files found:\n" ++
         String.intercalate "\n" (search_files st u pat)) ∧
  (search_files st u pat = [] →
     search_reply (search_files st u pat) = "No files found")

/-- Claimed behaviour of Share: idempotent, always succeeds, leaves the
caller exactly once in the target record, changes no other record, and
touches neither sessions nor credentials. -/
def ShareSpec (st : ServerState) (u f : String) : Prop :=
  (share_file (share_file st u f).1 u f).1 = (share_file st u f).1 ∧
  (share_file st u f).2 = "File shared successfully" ∧
  (∃ rec, lookup (share_file st u f).1.filesUploaded f = some rec ∧
     rec.count u = 1) ∧
  (∀ g, g ≠ f → lookup (share_file st u f).1.filesUploaded g =
     lookup st.filesUploaded g) ∧
  (share_file st u f).1.activeUsers = st.activeUsers ∧
  (share_file st u f).1.credentials = st.credentials

/-- Claimed behaviour of Remove: success exactly when the caller was a
sharer; then the caller is discarded and the record deleted when it
empties (so the file can no longer be found by Search); on failure the
state is unchanged; other records never change. -/
def RemoveSpec (st : ServerState) (u f : String) : Prop :=
  ((remove_shared_file st u f).2 = "File successfully removed from sharing" ↔
     ∃ rec, lookup st.filesUploaded f = some rec ∧ u ∈ rec) ∧
  ((¬ ∃ rec, lookup st.filesUploaded f = some rec ∧ u ∈ rec) →
     remove_shared_file st u f = (st, "File removal failed")) ∧
  (∀ rec, lookup st.filesUploaded f = some rec → u ∈ rec →
     lookup (remove_shared_file st u f).1.filesUploaded f =
       (if (rec.erase u).isEmpty then none else some (rec.erase u)) ∧
     (∀ rec', lookup (remove_shared_file st u f).1.filesUploaded f = some rec' →
        u ∉ rec') ∧
     (∀ g, g ≠ f → lookup (remove_shared_file st u f).1.filesUploaded g =
        lookup st.filesUploaded g)) ∧
  (∀ rec, lookup st.filesUploaded f = some rec → rec = [u] →
     ∀ u' pat, f ∉ search_files (remove_shared_file st u f).1 u' pat) ∧
  (remove_shared_file st u f).1.activeUsers = st.activeUsers ∧
  (remove_shared_file st u f).1.credentials = st.credentials

/-- A small concrete coordinator state used by the witnesses: two known
users, one of them online and sharing one file. -/
def demoState : ServerState :=
  { credentials := [("alice", "pw"), ("bob", "pw2")],
    activeUsers := [("bob", ⟨("127.0.0.1", 7001), 0, 6001⟩)],
    filesUploaded := [("a.txt", ["bob"])] }

/-- Source address used by the witnesses. -/
def demoAddr : Addr := ("127.0.0.1", 7000)

/-! ## Lemmas about the dictionary primitives -/

theorem lookup_mem {α : Type} {m : List (String × α)} {k : String} {v : α}
    (h : lookup m k = some v) : (k, v) ∈ m := by
  induction m with
  | nil => simp [lookup] at h
  | cons p rest ih =>
      obtain ⟨k', v'⟩ := p
      by_cases hk : k' = k
      · subst hk
        simp [lookup] at h
        rw [← h]
        exact List.mem_cons_self _ _
      · simp only [lookup, if_neg hk] at h
        exact List.mem_cons_of_mem _ (ih h)

theorem mem_lookup_isSome {α : Type} {m : List (String × α)} {k : String} {v : α}
    (h : (k, v) ∈ m) : (lookup m k).isSome = true := by
  induction m with
  | nil => simp at h
  | cons p rest ih =>
      obtain ⟨k', v'⟩ := p
      rcases List.mem_cons.mp h with h1 | h2
      · obtain ⟨hk, hv⟩ := Prod.mk.injEq k v k' v' ▸ h1
        simp [lookup, hk.symm]
      · by_cases hk : k' = k
        · simp [lookup, hk]
        · simpa [lookup, hk] using ih h2

theorem lookup_eq_none {α : Type} {m : List (String × α)} {k : String} :
    lookup m k = none ↔ ∀ v, (k, v) ∉ m := by
  constructor
  · intro h v hv
    have := mem_lookup_isSome hv
    rw [h] at this
    simp at this
  · intro h
    cases hl : lookup m k with
    | none => rfl
    | some v => exact absurd (lookup_mem hl) (h v)

theorem hasKey_iff {α : Type} {m : List (String × α)} {k : String} :
    hasKey m k = true ↔ ∃ v, (k, v) ∈ m := by
  unfold hasKey
  rw [Option.isSome_iff_exists]
  constructor
  · rintro ⟨v, hv⟩
    exact ⟨v, lookup_mem hv⟩
  · rintro ⟨v, hv⟩
    exact Option.isSome_iff_exists.mp (mem_lookup_isSome hv)

theorem lookup_setKey_self {α : Type} (m : List (String × α)) (k : String) (v : α) :
    lookup (setKey m k v) k = some v := by
  induction m with
  | nil => simp [setKey, lookup]
  | cons p rest ih =>
      obtain ⟨k', v'⟩ := p
      by_cases hk : k' = k
      · simp [setKey, hk, lookup]
      · simp [setKey, hk, lookup, ih]

theorem lookup_setKey_ne {α : Type} (m : List (String × α)) {k g : String} (v : α)
    (h : g ≠ k) : lookup (setKey m k v) g = lookup m g := by
  have hkg : k ≠ g := Ne.symm h
  induction m with
  | nil => simp [setKey, lookup, hkg]
  | cons p rest ih =>
      obtain ⟨k', v'⟩ := p
      by_cases hk : k' = k
      · subst hk
        simp [setKey, lookup, hkg]
      · by_cases hg : k' = g
        · simp [setKey, lookup, hk, hg, h]
        · simp [setKey, lookup, hk, hg, ih]

theorem mem_setKey {α : Type} {m : List (String × α)} {k : String} {v : α}
    {x : String × α} (h : x ∈ setKey m k v) : x ∈ m ∨ x = (k, v) := by
  induction m with
  | nil => simpa [setKey] using h
  | cons p rest ih =>
      obtain ⟨k', v'⟩ := p
      by_cases hk : k' = k
      · subst hk
        rcases List.mem_cons.mp (by simpa [setKey] using h) with h1 | h2
        · exact Or.inr h1
        · exact Or.inl (List.mem_cons_of_mem _ h2)
      · rcases List.mem_cons.mp (by simpa [setKey, hk] using h) with h1 | h2
        · exact Or.inl (by simp [h1])
        · rcases ih h2 with h3 | h3
          · exact Or.inl (List.mem_cons_of_mem _ h3)
          · exact Or.inr h3

theorem keys_setKey_isSome {α : Type} {m : List (String × α)} {k : String} (v : α)
    (h : (lookup m k).isSome = true) :
    (setKey m k v).map Prod.fst = m.map Prod.fst := by
  induction m with
  | nil => simp [lookup] at h
  | cons p rest ih =>
      obtain ⟨k', v'⟩ := p
      by_cases hk : k' = k
      · simp [setKey, hk]
      · simp only [lookup, if_neg hk] at h
        simp [setKey, hk, ih h]

theorem keys_setKey_none {α : Type} {m : List (String × α)} {k : String} (v : α)
    (h : lookup m k = none) :
    (setKey m k v).map Prod.fst = m.map Prod.fst ++ [k] := by
  induction m with
  | nil => simp [setKey]
  | cons p rest ih =>
      obtain ⟨k', v'⟩ := p
      by_cases hk : k' = k
      · simp [lookup, hk] at h
      · simp only [lookup, if_neg hk] at h
        simp [setKey, hk, ih h]

theorem keysNodup_setKey {α : Type} {m : List (String × α)} (k : String) (v : α)
    (h : (m.map Prod.fst).Nodup) : ((setKey m k v).map Prod.fst).Nodup := by
  cases hl : lookup m k with
  | some w =>
      rw [keys_setKey_isSome v (by simp [hl])]
      exact h
  | none =>
      rw [keys_setKey_none v hl]
      simpa [List.nodup_append] using ⟨h, lookup_eq_none.mp hl⟩

theorem lookup_delKey_self {α : Type} (m : List (String × α)) (k : String) :
    lookup (delKey m k) k = none := by
  rw [lookup_eq_none]
  intro v hv
  have := List.mem_filter.mp hv
  simp at this

theorem lookup_delKey_ne {α : Type} (m : List (String × α)) {k g : String}
    (h : g ≠ k) : lookup (delKey m k) g = lookup m g := by
  induction m with
  | nil => simp [delKey]
  | cons p rest ih =>
      obtain ⟨k', v'⟩ := p
      by_cases hk : k' = k
      · subst hk
        have : delKey ((k', v') :: rest) k' = delKey rest k' := by
          simp [delKey]
        rw [this, ih, lookup, if_neg (fun he => h he.symm)]
      · have : delKey ((k', v') :: rest) k = (k', v') :: delKey rest k := by
          simp [delKey, hk]
        rw [this]
        by_cases hg : k' = g
        · simp [lookup, hg]
        · simp [lookup, hg, ih]

theorem keysNodup_delKey {α : Type} {m : List (String × α)} (k : String)
    (h : (m.map Prod.fst).Nodup) : ((delKey m k).map Prod.fst).Nodup :=
  h.sublist (((List.filter_sublist m).map Prod.fst))

theorem keysNodup_unique {α : Type} {m : List (String × α)}
    (h : (m.map Prod.fst).Nodup) {k : String} {v v' : α}
    (h1 : (k, v) ∈ m) (h2 : (k, v') ∈ m) : v = v' := by
  induction m with
  | nil => simp at h1
  | cons p rest ih =>
      obtain ⟨k0, v0⟩ := p
      have hnd : (∀ x : α, (k0, x) ∉ rest) ∧ (rest.map Prod.fst).Nodup := by
        simpa using h
      rcases List.mem_cons.mp h1 with e1 | e1 <;> rcases List.mem_cons.mp h2 with e2 | e2
      · rw [Prod.mk.injEq] at e1 e2
        rw [e1.2, e2.2]
      · rw [Prod.mk.injEq] at e1
        exact absurd (e1.1 ▸ e2) (hnd.1 v')
      · rw [Prod.mk.injEq] at e2
        exact absurd (e2.1 ▸ e1) (hnd.1 v)
      · exact ih hnd.2 e1 e2

theorem keysNodup_lookup_of_mem {α : Type} {m : List (String × α)}
    (h : (m.map Prod.fst).Nodup) {k : String} {v : α}
    (hm : (k, v) ∈ m) : lookup m k = some v := by
  cases hl : lookup m k with
  | none => exact absurd hm (lookup_eq_none.mp hl v)
  | some w => rw [keysNodup_unique h (lookup_mem hl) hm]

/-! ## The Boolean substring test agrees with `List.IsInfix` -/

theorem isPrefixCh_iff (p s : List Char) : isPrefixCh p s = true ↔ p <+: s := by
  induction p generalizing s with
  | nil => simp [isPrefixCh]
  | cons a as ih =>
      cases s with
      | nil => simp [isPrefixCh]
      | cons b bs => simp [isPrefixCh, List.cons_prefix_cons, ih]

theorem isSubstrCh_iff (p s : List Char) : isSubstrCh p s = true ↔ p <:+: s := by
  induction s with
  | nil =>
      simp only [isSubstrCh, isPrefixCh_iff, List.infix_nil]
      exact ⟨fun h => List.prefix_nil.mp h, fun h => h ▸ List.nil_prefix⟩
  | cons c t ih => simp [isSubstrCh, List.infix_cons_iff, isPrefixCh_iff, ih]

theorem substrOf_iff (p s : String) : substrOf p s = true ↔ p.data <:+: s.data :=
  isSubstrCh_iff p.data s.data

theorem substrOf_empty (s : String) : substrOf "" s = true := by
  rw [substrOf_iff]
  exact List.nil_infix

/-! ## Behaviour of `share_file` and `remove_shared_file` on the registry -/

theorem share_file_lookup_self (st : ServerState) (u f : String) :
    lookup (share_file st u f).1.filesUploaded f =
      some (if u ∈ (lookup st.filesUploaded f).getD []
            then (lookup st.filesUploaded f).getD []
            else (lookup st.filesUploaded f).getD [] ++ [u]) := by
  unfold share_file
  cases hl : lookup st.filesUploaded f with
  | none => simp [hasKey, hl, lookup_setKey_self]
  | some old =>
      by_cases hc : u ∈ old
      · simp [hasKey, hl, hc]
      · simp [hasKey, hl, hc, lookup_setKey_self]

theorem share_file_lookup_other (st : ServerState) (u f g : String) (h : g ≠ f) :
    lookup (share_file st u f).1.filesUploaded g = lookup st.filesUploaded g := by
  unfold share_file
  cases hl : lookup st.filesUploaded f with
  | none => simp [hasKey, hl, lookup_setKey_self, lookup_setKey_ne _ _ h]
  | some old =>
      by_cases hc : u ∈ old
      · simp [hasKey, hl, hc]
      · simp [hasKey, hl, hc, lookup_setKey_ne _ _ h]

theorem share_file_noop {st : ServerState} {u f : String} {rec : List String}
    (h : lookup st.filesUploaded f = some rec) (hm : u ∈ rec) :
    (share_file st u f).1 = st := by
  unfold share_file
  simp [hasKey, h, hm]

theorem share_file_keysNodup {st : ServerState} (u f : String)
    (h : (st.filesUploaded.map Prod.fst).Nodup) :
    ((share_file st u f).1.filesUploaded.map Prod.fst).Nodup := by
  unfold share_file
  cases hl : lookup st.filesUploaded f with
  | none =>
      simp only [hasKey, hl, Option.isSome_none, Bool.false_eq_true, if_false,
        lookup_setKey_self, Option.getD_some, List.not_mem_nil, List.nil_append]
      exact keysNodup_setKey f _ (keysNodup_setKey f _ h)
  | some old =>
      by_cases hc : u ∈ old
      · simpa [hasKey, hl, hc] using h
      · have hcf : old.contains u = false := by simp [hc]
        simp only [hasKey, hl, Option.isSome_some, if_true, Option.getD_some, hcf,
          Bool.false_eq_true, if_false]
        exact keysNodup_setKey f _ h

theorem remove_file_fail {st : ServerState} {u f : String}
    (h : ∀ rec, lookup st.filesUploaded f = some rec → u ∉ rec) :
    remove_shared_file st u f = (st, "File removal failed") := by
  unfold remove_shared_file
  cases hl : lookup st.filesUploaded f with
  | none => rfl
  | some rec => simp [h rec hl]

theorem remove_file_success {st : ServerState} {u f : String} {rec : List String}
    (h : lookup st.filesUploaded f = some rec) (hm : u ∈ rec) :
    (remove_shared_file st u f).2 = "File successfully removed from sharing" ∧
    (remove_shared_file st u f).1.filesUploaded =
      (if (rec.erase u).isEmpty then delKey st.filesUploaded f
       else setKey st.filesUploaded f (rec.erase u)) ∧
    (remove_shared_file st u f).1.activeUsers = st.activeUsers ∧
    (remove_shared_file st u f).1.credentials = st.credentials := by
  unfold remove_shared_file
  by_cases he : (rec.erase u).isEmpty <;> simp [h, hm, he]

/-! ## Invariant of the file registry -/

/-- Well-formedness of the `filesUploaded` dictionary: unique keys, and
no record is empty. -/
def FilesInv (st : ServerState) : Prop :=
  (st.filesUploaded.map Prod.fst).Nodup ∧
  ∀ f rec, lookup st.filesUploaded f = some rec → rec ≠ []

theorem filesInv_share {st : ServerState} (u f : String) (h : FilesInv st) :
    FilesInv (share_file st u f).1 := by
  refine ⟨share_file_keysNodup u f h.1, ?_⟩
  intro g rec hl
  by_cases hg : g = f
  · subst hg
    rw [share_file_lookup_self] at hl
    by_cases hc : u ∈ (lookup st.filesUploaded g).getD []
    · rw [if_pos hc] at hl
      obtain rfl := Option.some.inj hl
      intro hnil
      rw [hnil] at hc
      simp at hc
    · rw [if_neg hc] at hl
      obtain rfl := Option.some.inj hl
      simp
  · rw [share_file_lookup_other st u f g hg] at hl
    exact h.2 g rec hl

theorem filesInv_remove {st : ServerState} (u f : String) (h : FilesInv st) :
    FilesInv (remove_shared_file st u f).1 := by
  by_cases hs : ∀ rec, lookup st.filesUploaded f = some rec → u ∉ rec
  · rw [remove_file_fail hs]
    exact h
  · push_neg at hs
    obtain ⟨rec, hl, hm⟩ := hs
    obtain ⟨-, hfu, -, -⟩ := remove_file_success hl hm
    constructor
    · rw [hfu]
      by_cases he : (rec.erase u).isEmpty
      · rw [if_pos he]
        exact keysNodup_delKey f h.1
      · rw [if_neg he]
        exact keysNodup_setKey f _ h.1
    · intro g rec' hl'
      rw [hfu] at hl'
      by_cases he : (rec.erase u).isEmpty
      · rw [if_pos he] at hl'
        by_cases hg : g = f
        · subst hg
          rw [lookup_delKey_self] at hl'
          cases hl'
        · rw [lookup_delKey_ne _ hg] at hl'
          exact h.2 g rec' hl'
      · rw [if_neg he] at hl'
        by_cases hg : g = f
        · subst hg
          rw [lookup_setKey_self] at hl'
          obtain rfl := Option.some.inj hl'
          intro hnil
          rw [hnil] at he
          simp at he
        · rw [lookup_setKey_ne _ _ hg] at hl'
          exact h.2 g rec' hl'

theorem filesInv_congr {s s' : ServerState}
    (he : s'.filesUploaded = s.filesUploaded) (h : FilesInv s) : FilesInv s' := by
  unfold FilesInv at *
  rw [he]
  exact h

theorem filesInv_handle {st : ServerState} (req : Request) (addr : Addr) (now : ℚ)
    (h : FilesInv st) : FilesInv (handleRequest st req addr now).1 := by
  cases req with
  | auth u p tp =>
      refine filesInv_congr ?_ h
      show (process_authentication st u p tp addr now).1.filesUploaded = st.filesUploaded
      unfold process_authentication
      split
      · rfl
      · split
        · rfl
        · split <;> rfl
  | status u =>
      refine filesInv_congr ?_ h
      show (process_status st u addr now).filesUploaded = st.filesUploaded
      unfold process_status
      split <;> rfl
  | listPeers u => exact h
  | listFiles u => exact h
  | share u f => exact filesInv_share u f h
  | search u p => exact h
  | remove u f => exact filesInv_remove u f h
  | fetch u f => exact h

theorem filesInv_step {st : ServerState} (req : Request) (addr : Addr) (now : ℚ)
    (h : FilesInv st) : FilesInv (serverStep st req addr now).1 :=
  filesInv_congr rfl (filesInv_handle req addr now h)

theorem filesInv_init (creds : List (String × String)) : FilesInv (initState creds) := by
  constructor
  · simp [initState]
  · intro f rec hl
    simp [initState, lookup] at hl

theorem filesInv_reachable {st0 st : ServerState} (h : Reachable st0 st)
    (h0 : FilesInv st0) : FilesInv st := by
  induction h with
  | refl => exact h0
  | step req addr now hr ih => exact filesInv_step req addr now ih

/-! ## Search characterization -/

theorem mem_keys_filter {α : Type} {l : List (String × α)} {q : String × α → Bool}
    {k : String} :
    k ∈ (l.filter q).map Prod.fst ↔ ∃ v, (k, v) ∈ l ∧ q (k, v) = true := by
  constructor
  · intro h
    obtain ⟨⟨k', v⟩, hm, he⟩ := List.mem_map.mp h
    obtain ⟨hml, hq⟩ := List.mem_filter.mp hm
    subst he
    exact ⟨v, hml, hq⟩
  · rintro ⟨v, hml, hq⟩
    exact List.mem_map.mpr ⟨(k, v), List.mem_filter.mpr ⟨hml, hq⟩, rfl⟩

theorem mem_search_files {st : ServerState} {u pat f : String} :
    f ∈ search_files st u pat ↔
      ∃ rec, (f, rec) ∈ st.filesUploaded ∧ substrOf pat f = true ∧
        ∃ s ∈ rec, hasKey st.activeUsers s = true ∧ s ≠ u := by
  unfold search_files
  rw [mem_keys_filter]
  constructor
  · rintro ⟨rec, hm, hq⟩
    simp only [Bool.and_eq_true, List.any_eq_true, bne_iff_ne] at hq
    obtain ⟨hsub, s, hs, hact, hne⟩ := hq
    exact ⟨rec, hm, hsub, s, hs, hact, hne⟩
  · rintro ⟨rec, hm, hsub, s, hs, hact, hne⟩
    refine ⟨rec, hm, ?_⟩
    simp only [Bool.and_eq_true, List.any_eq_true, bne_iff_ne]
    exact ⟨hsub, s, hs, hact, hne⟩

theorem search_files_nodup {st : ServerState} (u pat : String)
    (h : (st.filesUploaded.map Prod.fst).Nodup) : (search_files st u pat).Nodup :=
  h.sublist ((List.filter_sublist st.filesUploaded).map Prod.fst)

/-! ## Fetch scan characterization -/

theorem fetch_scan_notfound {st : ServerState} {u : String} {rec : List String}
    (h : ∀ s ∈ rec, s ≠ u → lookup st.activeUsers s = none) :
    fetch_scan st u rec = Reply.text "File not found" := by
  induction rec with
  | nil => rfl
  | cons s rest ih =>
      have hrest := ih fun s' hs' => h s' (List.mem_cons_of_mem _ hs')
      by_cases hsu : s = u
      · subst hsu
        unfold fetch_scan
        cases lookup st.activeUsers s with
        | none => exact hrest
        | some sd => simpa using hrest
      · have hnone := h s (List.mem_cons_self _ _) hsu
        unfold fetch_scan
        rw [hnone]
        exact hrest

theorem fetch_scan_cons (st : ServerState) (u sharer : String) (rest : List String) :
    fetch_scan st u (sharer :: rest) =
      match lookup st.activeUsers sharer with
      | some sd => if sharer ≠ u then Reply.fetchInfo sharer sd.addr.1 sd.tcpPort
                   else fetch_scan st u rest
      | none => fetch_scan st u rest := rfl

theorem fetch_scan_first {st : ServerState} {u : String} :
    ∀ pre : List String, ∀ s : String, ∀ post : List String,
      (∀ s' ∈ pre, s' ≠ u → lookup st.activeUsers s' = none) →
      s ≠ u → ∀ sd, lookup st.activeUsers s = some sd →
      fetch_scan st u (pre ++ s :: post) = Reply.fetchInfo s sd.addr.1 sd.tcpPort := by
  intro pre
  induction pre with
  | nil =>
      intro s post _ hs sd hsd
      rw [List.nil_append, fetch_scan_cons, hsd]
      simp [hs]
  | cons a pre ih =>
      intro s post hpre hs sd hsd
      have htail := ih s post
        (fun s' hs' => hpre s' (List.mem_cons_of_mem _ hs')) hs sd hsd
      rw [List.cons_append, fetch_scan_cons]
      by_cases hau : a = u
      · subst hau
        cases lookup st.activeUsers a with
        | none => exact htail
        | some sd' => simpa using htail
      · have hnone := hpre a (List.mem_cons_self _ _) hau
        rw [hnone]
        exact htail

/-! ## Authentication state shape -/

theorem auth_activeUsers_cases (st : ServerState) (u p : String) (tp : Nat)
    (addr : Addr) (now : ℚ) :
    (process_authentication st u p tp addr now).1.activeUsers = st.activeUsers ∨
    (process_authentication st u p tp addr now).1.activeUsers =
      setKey st.activeUsers u ⟨addr, now, tp⟩ := by
  unfold process_authentication
  split
  · exact Or.inl rfl
  · split
    · exact Or.inl rfl
    · split
      · exact Or.inl rfl
      · exact Or.inr rfl

/-! ## The claims -/

/-- C1: the claim says a malformed inbound datagram is rejected with a
generic error reply and the coordinator keeps processing. The code does
the opposite: `json.loads` (line 241) and `message['type']` (line 243)
run outside any `try`, so a payload that is not JSON, or a JSON object
with no `type` key, raises an uncaught exception and terminates the
main loop (the `none` case of `loopIter`), while a well-formed message
is processed normally. -/
theorem malformed_datagram_crashes_loop :
    loopIter (initState [("alice", "pw")]) Datagram.invalidJson
      ("127.0.0.1", 9000) 0 = none ∧
    loopIter (initState [("alice", "pw")]) Datagram.noType
      ("127.0.0.1", 9000) 0 = none ∧
    (loopIter (initState [("alice", "pw")])
      (Datagram.valid (Request.listPeers "alice")) ("127.0.0.1", 9000) 0).isSome
      = true :=
  ⟨rfl, rfl, rfl⟩

/-- C3: the claim says the fetch requester reports truncation when the
connection closes before the declared size is reached, and success only
on an exact-size transfer. The code prints the success line
unconditionally after the receive loop (client.py line 342): with a
declared size of 5 and a connection that delivers one 2-byte chunk and
closes, only 2 bytes are received yet the report is the success line. -/
theorem truncated_fetch_reported_as_success :
    (fetch_receive "a.txt" 5 [[104, 105]]).received = 2 ∧
    (fetch_receive "a.txt" 5 [[104, 105]]).received < 5 ∧
    (fetch_receive "a.txt" 5 [[104, 105]]).report =
      "a.txt downloaded successfully" :=
  ⟨rfl, by decide, rfl⟩

/-- C6: in every coordinator state reachable from an initial state
(empty sessions, empty registry) by any sequence of well-formed
operations, every FileRecord present in the registry has a non-empty
sharer set. -/
theorem fileRecord_sharers_nonempty (creds : List (String × String))
    (st : ServerState) (h : Reachable (initState creds) st) :
    ∀ f rec, (f, rec) ∈ st.filesUploaded → rec ≠ [] := by
  have hinv := filesInv_reachable h (filesInv_init creds)
  intro f rec hm
  exact hinv.2 f rec (keysNodup_lookup_of_mem hinv.1 hm)

/-- Witness for C6: the invariant holds in the concrete state reached
by one Share step from the initial state, whose registry is exactly one
record with one sharer. -/
theorem fileRecord_sharers_nonempty_witness :
    (∀ f rec,
      (f, rec) ∈ (serverStep (initState [("alice", "pw")])
        (Request.share "alice" "a.txt") ("127.0.0.1", 6000) 0).1.filesUploaded →
      rec ≠ []) ∧
    (serverStep (initState [("alice", "pw")])
      (Request.share "alice" "a.txt") ("127.0.0.1", 6000) 0).1.filesUploaded =
      [("a.txt", ["alice"])] :=
  ⟨fileRecord_sharers_nonempty [("alice", "pw")] _
    (Reachable.step _ _ _ (Reachable.refl _)), rfl⟩

/-- C10: with the empty string as pattern, Search's substring test
accepts every filename (the empty string is a substring of every
string), so the result is exactly the filenames with at least one live
sharer other than the caller. -/
theorem search_empty_pattern_spec (st : ServerState) (u : String) :
    search_files st u "" =
      (st.filesUploaded.filter (fun fr =>
         fr.2.any (fun s => hasKey st.activeUsers s && s != u))).map Prod.fst ∧
    (∀ f, f ∈ search_files st u "" ↔
       ∃ rec, (f, rec) ∈ st.filesUploaded ∧
         ∃ s ∈ rec, s ≠ u ∧ ∃ sd, (s, sd) ∈ st.activeUsers) := by
  constructor
  · unfold search_files
    congr 1
    apply List.filter_congr
    intro fr _
    simp [substrOf_empty]
  · intro f
    rw [mem_search_files]
    constructor
    · rintro ⟨rec, hm, _, s, hs, hact, hne⟩
      exact ⟨rec, hm, s, hs, hne, hasKey_iff.mp hact⟩
    · rintro ⟨rec, hm, s, hs, hne, sd, hsd⟩
      exact ⟨rec, hm, substrOf_empty f, s, hs, hasKey_iff.mpr ⟨sd, hsd⟩, hne⟩

/-- C2: every Authenticate request reports exactly one outcome, with
precedence AlreadyActive (whatever the credentials), UnknownUser,
BadPassword, then success; failures leave all state unchanged; success
stores a session with the source address, the current time and the
transfer port; and a username keys at most one session afterwards. -/
theorem authenticate_outcomes (st : ServerState) (u p : String) (tp : Nat)
    (addr : Addr) (now : ℚ) (hN : (st.activeUsers.map Prod.fst).Nodup) :
    AuthSpec st u p tp addr now := by
  have hkey : ∀ (h : ∀ sd, (u, sd) ∉ st.activeUsers),
      hasKey st.activeUsers u = false := by
    intro h
    rw [Bool.eq_false_iff]
    intro hk
    obtain ⟨sd, hsd⟩ := hasKey_iff.mp hk
    exact h sd hsd
  refine ⟨?_, ?_, ?_, ?_, ?_⟩
  · rintro ⟨sd, hsd⟩
    have h1 : hasKey st.activeUsers u = true := hasKey_iff.mpr ⟨sd, hsd⟩
    unfold process_authentication
    simp [h1]
  · intro hno hcred
    have h1 := hkey hno
    have h2 : hasKey st.credentials u = false := by simp [hasKey, hcred]
    unfold process_authentication
    simp [h1, h2]
  · intro pw hno hcred hpw
    have h1 := hkey hno
    have h2 : hasKey st.credentials u = true := by simp [hasKey, hcred]
    unfold process_authentication
    simp [h1, h2, hcred, hpw]
  · intro hno hcred
    have h1 := hkey hno
    have h2 : hasKey st.credentials u = true := by simp [hasKey, hcred]
    have heq : process_authentication st u p tp addr now =
        ({ st with activeUsers := setKey st.activeUsers u ⟨addr, now, tp⟩ },
          "OK") := by
      unfold process_authentication
      simp [h1, h2, hcred]
    rw [heq]
    exact ⟨rfl, lookup_mem (lookup_setKey_self _ _ _), rfl, rfl⟩
  · rcases auth_activeUsers_cases st u p tp addr now with hA | hA <;> rw [hA] <;>
      intro u' sd sd' h1 h2
    · exact keysNodup_unique hN h1 h2
    · exact keysNodup_unique (keysNodup_setKey u _ hN) h1 h2

/-- Witness for C2: the authentication outcomes hold at the concrete
demo state for a fresh login of the offline user alice. -/
theorem authenticate_outcomes_witness :
    (demoState.activeUsers.map Prod.fst).Nodup ∧
    AuthSpec demoState "alice" "pw" 5000 demoAddr 1 :=
  ⟨by decide, authenticate_outcomes _ _ _ _ _ _ (by decide)⟩

/-- C4: a Fetch reply never changes the state; it is "File not found"
when no record exists or no sharer other than the caller is live, and
otherwise carries the username, host address and transfer port of the
first live sharer other than the caller, in sharer-list order. -/
theorem fetch_reply_spec (st : ServerState) (u f : String) (addr : Addr)
    (now : ℚ) :
    (handleRequest st (Request.fetch u f) addr now).1 = st ∧
    (lookup st.filesUploaded f = none →
       process_fetch_request st u f = Reply.text "File not found") ∧
    (∀ rec, lookup st.filesUploaded f = some rec →
       ((∀ s ∈ rec, s ≠ u → ¬ ∃ sd, (s, sd) ∈ st.activeUsers) →
          process_fetch_request st u f = Reply.text "File not found") ∧
       (∀ pre s post sd, rec = pre ++ s :: post →
          (∀ s' ∈ pre, s' ≠ u → ¬ ∃ sd', (s', sd') ∈ st.activeUsers) →
          s ≠ u → lookup st.activeUsers s = some sd →
          process_fetch_request st u f =
            Reply.fetchInfo s sd.addr.1 sd.tcpPort)) := by
  refine ⟨rfl, ?_, ?_⟩
  · intro h
    unfold process_fetch_request
    rw [h]
  · intro rec hl
    constructor
    · intro hall
      unfold process_fetch_request
      rw [hl]
      exact fetch_scan_notfound fun s hs hsu =>
        lookup_eq_none.mpr fun sd hsd => hall s hs hsu ⟨sd, hsd⟩
    · intro pre s post sd hrec hpre hsu hsd
      unfold process_fetch_request
      rw [hl, hrec]
      exact fetch_scan_first pre s post
        (fun s' hs' hne =>
          lookup_eq_none.mpr fun sd' hsd' => hpre s' hs' hne ⟨sd', hsd'⟩)
        hsu sd hsd

/-- C5: after every processed message, the sweep evicts exactly the
sessions whose last-heartbeat age exceeds 3 time units, so in the state
observed between messages no session is older than the window; the file
registry is untouched by the sweep; and an evicted user is absent from
any subsequent peer listing. -/
theorem expiry_sweep_spec (st : ServerState) (req : Request) (addr : Addr)
    (now : ℚ)
    (hN : ((handleRequest st req addr now).1.activeUsers.map Prod.fst).Nodup) :
    SweepSpec st req addr now := by
  have hpost : (serverStep st req addr now).1.activeUsers =
      (handleRequest st req addr now).1.activeUsers.filter
        (fun q => decide (¬ now - q.2.lastStatus > 3)) := rfl
  have hmemiff : ∀ u sd,
      (u, sd) ∈ (serverStep st req addr now).1.activeUsers ↔
      ((u, sd) ∈ (handleRequest st req addr now).1.activeUsers ∧
       ¬ now - sd.lastStatus > 3) := by
    intro u sd
    rw [hpost, List.mem_filter]
    simp
  refine ⟨hmemiff, rfl, ?_, ?_⟩
  · intro u sd h
    exact not_lt.mp ((hmemiff u sd).mp h).2
  · intro u sd hm hgt u' hmem
    unfold list_active_peers at hmem
    obtain ⟨hmem1, -⟩ := List.mem_filter.mp hmem
    obtain ⟨⟨u0, sd'⟩, hp, he⟩ := List.mem_map.mp hmem1
    subst he
    obtain ⟨hmid, hnd⟩ := (hmemiff u0 sd').mp hp
    have hsd := keysNodup_unique hN hmid hm
    subst hsd
    exact hnd hgt

/-- Witness for C5: the sweep property at the demo state, a ListPeers
message and a current time far past the only session's heartbeat. -/
theorem expiry_sweep_spec_witness :
    ((handleRequest demoState (Request.listPeers "alice")
        demoAddr 5).1.activeUsers.map Prod.fst).Nodup ∧
    SweepSpec demoState (Request.listPeers "alice") demoAddr 5 :=
  ⟨by decide, expiry_sweep_spec _ _ _ _ (by decide)⟩

/-- C7: Search reports exactly the filenames containing the pattern as
a substring that have a live sharer other than the caller, each at most
once, and the reply prints the length of that list. -/
theorem search_results_spec (st : ServerState) (u pat : String)
    (hN : (st.filesUploaded.map Prod.fst).Nodup) : SearchSpec st u pat := by
  refine ⟨?_, search_files_nodup u pat hN, ?_, ?_⟩
  · intro f
    rw [mem_search_files]
    constructor
    · rintro ⟨rec, hm, hsub, s, hs, hact, hne⟩
      exact ⟨(substrOf_iff pat f).mp hsub, rec, hm, s, hs, hne,
        hasKey_iff.mp hact⟩
    · rintro ⟨hsub, rec, hm, s, hs, hne, sd, hsd⟩
      exact ⟨rec, hm, (substrOf_iff pat f).mpr hsub, s, hs,
        hasKey_iff.mpr ⟨sd, hsd⟩, hne⟩
  · intro h
    unfold search_reply
    simp [h]
  · intro h
    rw [h]
    rfl

/-- Witness for C7: the search property at the demo state for caller
alice and pattern "a". -/
theorem search_results_spec_witness :
    (demoState.filesUploaded.map Prod.fst).Nodup ∧
    SearchSpec demoState "alice" "a" :=
  ⟨by decide, search_results_spec _ _ _ (by decide)⟩

/-- C8: Share is idempotent — a second identical Share leaves the state
it produced unchanged — it always reports success, the caller ends up
exactly once in the target sharer record, and no other record, session
or credential changes. -/
theorem share_idempotent_spec (st : ServerState) (u f : String)
    (hrec : ∀ rec, lookup st.filesUploaded f = some rec → rec.Nodup) :
    ShareSpec st u f := by
  refine ⟨?_, rfl, ?_, ?_, rfl, rfl⟩
  · have h1 := share_file_lookup_self st u f
    by_cases hc : u ∈ (lookup st.filesUploaded f).getD []
    · rw [if_pos hc] at h1
      exact share_file_noop h1 hc
    · rw [if_neg hc] at h1
      exact share_file_noop h1 (by simp)
  · have h1 := share_file_lookup_self st u f
    cases hl : lookup st.filesUploaded f with
    | none =>
        rw [hl] at h1
        simp only [Option.getD_none, List.not_mem_nil, if_false,
          List.nil_append] at h1
        exact ⟨[u], h1, by simp⟩
    | some old =>
        rw [hl] at h1
        simp only [Option.getD_some] at h1
        by_cases hc : u ∈ old
        · rw [if_pos hc] at h1
          exact ⟨old, h1, List.count_eq_one_of_mem (hrec old hl) hc⟩
        · rw [if_neg hc] at h1
          refine ⟨old ++ [u], h1, ?_⟩
          rw [List.count_append, List.count_eq_zero_of_not_mem hc]
          simp
  · exact fun g hg => share_file_lookup_other st u f g hg

/-- Witness for C8: the Share properties at the demo state for alice
sharing "a.txt" (already shared by bob). -/
theorem share_idempotent_spec_witness :
    (∀ rec, lookup demoState.filesUploaded "a.txt" = some rec → rec.Nodup) ∧
    ShareSpec demoState "alice" "a.txt" :=
  ⟨fun rec h => by
      obtain rfl := Option.some.inj h
      decide,
   share_idempotent_spec _ _ _ (fun rec h => by
      obtain rfl := Option.some.inj h
      decide)⟩

/-- C9: Remove succeeds exactly when the caller was a sharer of the
file; on success the caller is discarded and the record disappears when
it empties, after which Search can no longer return the file; on
failure the state is unchanged; other records never change. -/
theorem remove_spec (st : ServerState) (u f : String)
    (hrec : ∀ rec, lookup st.filesUploaded f = some rec → rec.Nodup) :
    RemoveSpec st u f := by
  by_cases hex : ∃ rec, lookup st.filesUploaded f = some rec ∧ u ∈ rec
  case pos =>
    obtain ⟨rec0, hl0, hm0⟩ := hex
    obtain ⟨hr, -, hact, hcred⟩ := remove_file_success hl0 hm0
    refine ⟨⟨fun _ => ⟨rec0, hl0, hm0⟩, fun _ => hr⟩, ?_, ?_, ?_, hact, hcred⟩
    · intro hne
      exact absurd ⟨rec0, hl0, hm0⟩ hne
    · intro rec hl hm
      obtain ⟨-, hfu', -, -⟩ := remove_file_success hl hm
      refine ⟨?_, ?_, ?_⟩
      · rw [hfu']
        by_cases he : (rec.erase u).isEmpty
        · simp [he, lookup_delKey_self]
        · simp [he, lookup_setKey_self]
      · intro rec' hl'
        rw [hfu'] at hl'
        by_cases he : (rec.erase u).isEmpty
        · rw [if_pos he, lookup_delKey_self] at hl'
          cases hl'
        · rw [if_neg he, lookup_setKey_self] at hl'
          obtain rfl := Option.some.inj hl'
          simp [List.Nodup.mem_erase_iff (hrec rec hl)]
      · intro g hg
        rw [hfu']
        by_cases he : (rec.erase u).isEmpty
        · rw [if_pos he]
          exact lookup_delKey_ne _ hg
        · rw [if_neg he]
          exact lookup_setKey_ne _ _ hg
    · intro rec hl hx u' pat hmem
      subst hx
      obtain ⟨-, hfu', -, -⟩ :=
        remove_file_success hl (List.mem_singleton_self u)
      have he : (([u] : List String).erase u).isEmpty = true := by simp
      rw [if_pos he] at hfu'
      obtain ⟨rec2, hm2, -, -⟩ := mem_search_files.mp hmem
      have hsome := mem_lookup_isSome hm2
      rw [hfu', lookup_delKey_self] at hsome
      cases hsome
  case neg =>
    have hno : ∀ rec, lookup st.filesUploaded f = some rec → u ∉ rec := by
      intro rec hl hm
      exact hex ⟨rec, hl, hm⟩
    have hfail := remove_file_fail hno
    refine ⟨?_, fun _ => hfail, ?_, ?_, ?_, ?_⟩
    · rw [hfail]
      constructor
      · intro h
        have hne : ("File removal failed" : String) ≠
            "File successfully removed from sharing" := by decide
        exact absurd h hne
      · intro h
        exact absurd h hex
    · intro rec hl hm
      exact absurd ⟨rec, hl, hm⟩ hex
    · intro rec hl hx u' pat
      exact absurd ⟨rec, hl, hx ▸ List.mem_singleton_self u⟩ hex
    · rw [hfail]
    · rw [hfail]

/-- Witness for C9: the Remove properties at the demo state for bob,
the only sharer of "a.txt". -/
theorem remove_spec_witness :
    (∀ rec, lookup demoState.filesUploaded "a.txt" = some rec → rec.Nodup) ∧
    RemoveSpec demoState "bob" "a.txt" :=
  ⟨fun rec h => by
      obtain rfl := Option.some.inj h
      decide,
   remove_spec _ _ _ (fun rec h => by
      obtain rfl := Option.some.inj h
      decide)⟩

end PyMesh
